import Mathlib

/-
Verification of the mcpy dispatch core and self-update mechanism.

This file gives a shallow embedding, in Lean 4, of the parts of the mcpy
source relevant to the specification's claims:

  * the JSON-ish configuration store and `getSettingValue` (src/settings.ts),
  * the enablement resolver `isToolEnabled` (src/tools/index.ts),
  * the per-call wrapper installed by `registerTools` (src/tools/index.ts),
  * the telemetry bus `emit` / `updateToolStats` / `recordTimeseries`
    (src/events.ts),
  * the settings merge `updateSettings` and `redactSettings` (src/settings.ts),
  * the update manager `isNewer` / `checkForUpdate` / `performUpdate`
    (src/update.ts).

Effectful TypeScript code is modelled by explicit state passing: the
filesystem touched by `performUpdate` becomes a record of the three paths the
function manipulates, network fetches become constructor-tagged outcomes
passed as arguments, and `Date.now()` readings become numeric parameters.
JavaScript numbers are modelled as exact rationals (durations, averages) or
integers (version components); JavaScript objects become association lists
with first-match lookup.
-/

namespace Mcpy

/-! ## JSON values and JavaScript object primitives

`Settings` is walked generically by `getSettingValue`, so we model nested
configuration data as a small JSON universe.  Association-list operations
mirror JavaScript object semantics: unique keys, in-place overwrite on
assignment, `delete` removes the key. -/

inductive JVal where
  | jnull
  | jbool (b : Bool)
  | jnum (n : Int)
  | jstr (s : String)
  | jobj (fields : List (String × JVal))

/-- First-match lookup, `obj[k]` (returns `none` for `undefined`). -/
def objGet {α : Type} : List (String × α) → String → Option α
  | [], _ => none
  | (k2, v) :: rest, k => if k2 = k then some v else objGet rest k

/-- JavaScript assignment `obj[k] = v`: overwrite in place, else append. -/
def objSet {α : Type} : List (String × α) → String → α → List (String × α)
  | [], k, v => [(k, v)]
  | (k2, v2) :: rest, k, v =>
      if k2 = k then (k2, v) :: rest else (k2, v2) :: objSet rest k v

/-- JavaScript `delete obj[k]`. -/
def objDelete {α : Type} (l : List (String × α)) (k : String) : List (String × α) :=
  l.filter (fun kv => !(kv.1 = k : Bool))

/-- JavaScript truthiness of a possibly-`undefined` value (`!!val`). -/
def jOptTruthy : Option JVal → Bool
  | none => false
  | some .jnull => false
  | some (.jbool b) => b
  | some (.jnum n) => decide (n ≠ 0)
  | some (.jstr s) => decide (s ≠ "")
  | some (.jobj _) => true

/-- Truthiness of a value that is known to be present. -/
def jTruthy (v : JVal) : Bool := jOptTruthy (some v)

/-- Split a character list at every `'.'`, modelling `path.split(".")`. -/
def splitDots : List Char → List (List Char)
  | [] => [[]]
  | c :: rest =>
      match splitDots rest with
      | [] => [[c]]
      | g :: gs => if c = '.' then [] :: g :: gs else (c :: g) :: gs

/-- JavaScript `s.split(".")`. -/
def jsSplitOnDots (s : String) : List String :=
  (splitDots s.data).map String.mk

/-- Walk a dotted path through nested configuration.  Any missing
intermediate key, or a non-object intermediate value, yields `none`
(JavaScript `undefined`), never an error. -/
def walkPath : Option JVal → List String → Option JVal
  | cur, [] => cur
  | some (.jobj fs), p :: ps => walkPath (objGet fs p) ps
  | _, _ :: _ => none

/-! ## Settings (src/settings.ts data model, types.ts `Settings`)

`apiKeys` and `notes` are string-valued records, `database` maps a database
name to a record of connection fields (typed `unknown` in the merge code, so
the field values stay in the JSON universe), and `tools` maps a tool name to
its explicit `{ enabled: boolean }` override. -/

structure Settings where
  apiKeys : List (String × String)
  database : List (String × List (String × JVal))
  notes : List (String × String)
  tools : List (String × Bool)

/-- The settings structure viewed as the JavaScript object that
`getSettingValue` walks. -/
def Settings.toJVal (s : Settings) : JVal :=
  .jobj
    [ ("apiKeys", .jobj (s.apiKeys.map (fun kv => (kv.1, .jstr kv.2)))),
      ("database", .jobj (s.database.map (fun kv => (kv.1, .jobj kv.2)))),
      ("notes", .jobj (s.notes.map (fun kv => (kv.1, .jstr kv.2)))),
      ("tools", .jobj (s.tools.map (fun kv => (kv.1, .jobj [("enabled", .jbool kv.2)])))) ]

/-- `getSettingValue(settings, path)` from src/settings.ts. -/
def getSettingValue (s : Settings) (path : String) : Option JVal :=
  walkPath (some s.toJVal) (jsSplitOnDots path)

/-! ## Catalog and enablement resolver (src/tools/index.ts) -/

/-- GroupDefinition (src/tools/base.ts); label, description, url and
settings-field metadata are omitted as they never influence behaviour. -/
structure GroupDefinition where
  id : String
  enabledByDefault : Bool
  requiresConfig : Bool

/-- ToolDefinition (src/tools/base.ts); the handler and input schema are
modelled separately at the call boundary. -/
structure ToolDefinition where
  name : String
  category : String
  group : Option String
  requiredSettings : Option (List String)

/-- `groupRegistry.get(id)` over the registered group list. -/
def groupFind (groups : List GroupDefinition) (gid : String) : Option GroupDefinition :=
  groups.find? (fun g => g.id == gid)

/-- `hasRequiredSettings(tool, settings)` from src/tools/index.ts. -/
def hasRequiredSettings (tool : ToolDefinition) (s : Settings) : Bool :=
  match tool.requiredSettings with
  | none => true
  | some paths => paths.all (fun p => jOptTruthy (getSettingValue s p))

/-- `isToolEnabled(tool, settings)` from src/tools/index.ts.  The explicit
per-tool toggle wins; otherwise tools that declare required settings
auto-enable once configured, regardless of `enabledByDefault`; otherwise the
group default applies (`true` when the tool has no group or the group id is
unregistered). -/
def isToolEnabled (groups : List GroupDefinition) (tool : ToolDefinition)
    (s : Settings) : Bool :=
  match objGet s.tools tool.name with
  | some explicit => explicit && hasRequiredSettings tool s
  | none =>
      let group := tool.group.bind (groupFind groups)
      if (match tool.requiredSettings with
          | some rs => decide (rs.length > 0)
          | none => false) then
        hasRequiredSettings tool s
      else
        match group with
        | some g => g.enabledByDefault
        | none => true

/-- The tool's declared required-configuration paths (empty when
undeclared). -/
def requiredPaths (tool : ToolDefinition) : List String :=
  tool.requiredSettings.getD []

/-- Enablement as the specification words it, rule by rule: (1) an explicit
override enables iff the override is true and every required path is
configured; (2) otherwise declared required paths decide by themselves;
(3) otherwise the owning group's default decides, a group-less tool being
enabled.  (The spec's referential invariant makes the unregistered-group
case unreachable; this definition maps it to `false`.) -/
def isEnabledSpec (groups : List GroupDefinition) (tool : ToolDefinition)
    (s : Settings) : Bool :=
  let configured := (requiredPaths tool).all (fun p => jOptTruthy (getSettingValue s p))
  match objGet s.tools tool.name with
  | some override => override && configured
  | none =>
      if (requiredPaths tool).isEmpty then
        match tool.group with
        | none => true
        | some gid =>
            match groupFind groups gid with
            | some g => g.enabledByDefault
            | none => false
      else configured

/-- C1: `isToolEnabled` follows the specified precedence exactly: an explicit
override is enabled iff the override is true and every declared
required-configuration path resolves to a non-empty value (so an explicit
false always disables); otherwise declared required paths decide on their
own, overriding the group default; otherwise the owning group's
default-enabled flag decides, and a tool with no group is enabled.  Stated
as equality with `isEnabledSpec`, the rule-by-rule transcription of the
specification, under the spec's referential invariant that a declared group
id resolves to a registered group. -/
lemma hasRequiredSettings_eq_all (tool : ToolDefinition) (s : Settings) :
    hasRequiredSettings tool s
      = (requiredPaths tool).all (fun p => jOptTruthy (getSettingValue s p)) := by
  unfold hasRequiredSettings requiredPaths
  cases tool.requiredSettings <;> simp

lemma groupDefault_eq (groups : List GroupDefinition) (tool : ToolDefinition)
    (href : ∀ gid, tool.group = some gid → (groupFind groups gid).isSome) :
    (match tool.group.bind (groupFind groups) with
      | some g => g.enabledByDefault
      | none => true)
      = (match tool.group with
          | none => true
          | some gid =>
              match groupFind groups gid with
              | some g => g.enabledByDefault
              | none => false) := by
  cases hg : tool.group with
  | none => rfl
  | some gid =>
      have hs := href gid hg
      cases hfind : groupFind groups gid with
      | none => rw [hfind] at hs; simp at hs
      | some g => simp [hfind]

theorem C1_enablement_precedence (groups : List GroupDefinition)
    (tool : ToolDefinition) (s : Settings)
    (href : ∀ gid, tool.group = some gid → (groupFind groups gid).isSome) :
    isToolEnabled groups tool s = isEnabledSpec groups tool s := by
  unfold isToolEnabled isEnabledSpec
  rw [hasRequiredSettings_eq_all]
  cases hov : objGet s.tools tool.name with
  | some b => rfl
  | none =>
      cases hrs : tool.requiredSettings with
      | none =>
          simp only [requiredPaths, hrs, Option.getD_none, List.isEmpty_nil,
            decide_False, if_false, if_true, Bool.false_eq_true, ite_true]
          exact groupDefault_eq groups tool href
      | some rs =>
          cases rs with
          | nil =>
              simp only [requiredPaths, hrs, Option.getD_some, List.isEmpty_nil,
                List.length_nil, gt_iff_lt, Nat.lt_irrefl, decide_False,
                Bool.false_eq_true, if_false, ite_true]
              exact groupDefault_eq groups tool href
          | cons p ps =>
              simp [requiredPaths, hrs]

/-- A concrete catalog slice used to instantiate `C1_enablement_precedence`:
one group that defaults to disabled, a tool in it requiring
`apiKeys.perplexity`, and a configuration that supplies that key. -/
def sampleGroups : List GroupDefinition :=
  [{ id := "perplexity", enabledByDefault := false, requiresConfig := true }]

def sampleTool : ToolDefinition :=
  { name := "perplexity_search", category := "web", group := some "perplexity",
    requiredSettings := some ["apiKeys.perplexity"] }

def sampleSettings : Settings :=
  { apiKeys := [("perplexity", "pplx-key")], database := [], notes := [],
    tools := [] }

theorem C1_enablement_precedence_witness :
    isToolEnabled sampleGroups sampleTool sampleSettings
      = isEnabledSpec sampleGroups sampleTool sampleSettings :=
  C1_enablement_precedence sampleGroups sampleTool sampleSettings
    (by
      intro gid h
      obtain rfl : gid = "perplexity" := Option.some.inj h.symm
      decide)

/-! ## Events (src/types.ts `McpEvent`) -/

inductive EvType where
  | tool_call
  | tool_result
  | tool_error
  | session_connect
  | session_disconnect
  | server_start
deriving DecidableEq, Repr

/-- McpEvent.  `input` carries the raw call parameters; its contents never
influence any behaviour in scope, so the payload is kept opaque as its
serialized form.  `duration` is a JavaScript number, modelled exactly as a
rational. -/
structure Event where
  id : String
  type : EvType
  timestamp : String
  tool : Option String := none
  category : Option String := none
  input : Option String := none
  duration : Option ℚ := none
  error : Option String := none
  sessionId : Option String := none
  clientName : Option String := none
deriving DecidableEq, Repr

/-! ## Invocation wrapper (the handler closure registered by `registerTools`
in src/tools/index.ts)

The registered closure emits a `tool_call` event, re-checks required
settings, invokes the tool handler inside `try`/`catch`, and emits a
`tool_result` or `tool_error` event.  The handler is modelled by its
outcome: it either resolves with a result or throws with a (stringified)
message.  `Date.now()` readings are the parameters `t0` (before the call)
and `t1` (after it settles); `makeEventId()` values and ISO timestamps are
the string parameters. -/

structure ToolResult where
  content : List String
  isError : Bool := false
deriving DecidableEq, Repr

inductive HandlerOutcome where
  | ok (r : ToolResult)
  | thrown (msg : String)

structure WrapOutput where
  result : ToolResult
  events : List Event
  handlerCalls : Nat

/-- The first declared required-configuration path whose value is missing at
call time (the guard loop returns on the first falsy value). -/
def firstMissing (tool : ToolDefinition) (s : Settings) : Option String :=
  (tool.requiredSettings.getD []).find?
    (fun p => !(jOptTruthy (getSettingValue s p)))

/-- The structured guard-failure result (`Missing required setting: ...`);
`port` models `process.env.PORT || 3713`. -/
def missingSettingResult (p port : String) : ToolResult :=
  { content := ["Missing required setting: " ++ p
      ++ ". Please configure it in the mcpy settings UI at http://localhost:"
      ++ port ++ "/settings"],
    isError := true }

/-- One invocation of the closure `registerTools` installs for a tool.
Returning a `WrapOutput` (rather than an exception-carrying type) reflects
that the closure catches every handler exception at this boundary and never
re-raises across it. -/
def wrappedCall (tool : ToolDefinition) (s : Settings) (params : String)
    (h : HandlerOutcome) (callId eid ts0 ts1 port : String) (t0 t1 : ℚ) :
    WrapOutput :=
  let callEv : Event :=
    { id := callId, type := .tool_call, timestamp := ts0,
      tool := some tool.name, category := some tool.category,
      input := some params }
  match firstMissing tool s with
  | some p =>
      { result := missingSettingResult p port,
        events := [callEv,
          { id := eid, type := .tool_error, timestamp := ts1,
            tool := some tool.name, category := some tool.category,
            error := some ("Missing setting: " ++ p),
            duration := some (t1 - t0) }],
        handlerCalls := 0 }
  | none =>
      match h with
      | .ok r =>
          { result := r,
            events := [callEv,
              { id := eid, type := .tool_result, timestamp := ts1,
                tool := some tool.name, category := some tool.category,
                duration := some (t1 - t0) }],
            handlerCalls := 1 }
      | .thrown msg =>
          { result := { content := ["Error: " ++ msg], isError := true },
            events := [callEv,
              { id := eid, type := .tool_error, timestamp := ts1,
                tool := some tool.name, category := some tool.category,
                error := some msg, duration := some (t1 - t0) }],
            handlerCalls := 1 }

/-- C2: if the tool's handler throws, the wrapper catches the exception,
returns a structured result flagged `isError` whose text is the stringified
message, emits exactly one `tool_error` event — carrying the measured
duration and the stringified message — and no `tool_result` event.  The
wrapper's total return type records that the exception is never re-raised
out of the call boundary. -/
theorem C2_handler_exception_contained (tool : ToolDefinition) (s : Settings)
    (params msg callId eid ts0 ts1 port : String) (t0 t1 : ℚ)
    (hguard : firstMissing tool s = none) :
    (wrappedCall tool s params (.thrown msg) callId eid ts0 ts1 port t0 t1).result
        = { content := ["Error: " ++ msg], isError := true } ∧
    ((wrappedCall tool s params (.thrown msg) callId eid ts0 ts1 port t0 t1).events.filter
        (fun e => e.type = EvType.tool_error)).length = 1 ∧
    ((wrappedCall tool s params (.thrown msg) callId eid ts0 ts1 port t0 t1).events.filter
        (fun e => e.type = EvType.tool_result)).length = 0 ∧
    (∀ e ∈ (wrappedCall tool s params (.thrown msg) callId eid ts0 ts1 port t0 t1).events,
        e.type = EvType.tool_error →
          e.duration = some (t1 - t0) ∧ e.error = some msg) := by
  unfold wrappedCall
  rw [hguard]
  refine ⟨rfl, by simp, by simp, ?_⟩
  intro e he htype
  simp only [List.mem_cons, List.not_mem_nil, or_false] at he
  rcases he with rfl | rfl
  · simp at htype
  · exact ⟨rfl, rfl⟩

theorem C2_handler_exception_contained_witness :
    ((wrappedCall sampleTool sampleSettings "\x7b\x7d" (.thrown "boom")
        "id1" "id2" "T0" "T1" "3713" 10 25).result
        = { content := ["Error: boom"], isError := true }) ∧
    (((wrappedCall sampleTool sampleSettings "\x7b\x7d" (.thrown "boom")
        "id1" "id2" "T0" "T1" "3713" 10 25).events.filter
        (fun e => e.type = EvType.tool_error)).length = 1) :=
  have h := C2_handler_exception_contained sampleTool sampleSettings
    "\x7b\x7d" "boom" "id1" "id2" "T0" "T1" "3713" 10 25 (by decide)
  ⟨h.1, h.2.1⟩

/-- C3: when a declared required-configuration path is missing at call time,
the invocation short-circuits: the handler is invoked zero times, the result
is flagged `isError`, and exactly one `tool_error` event is emitted, naming
a missing required setting. -/
theorem C3_guard_short_circuit (tool : ToolDefinition) (s : Settings)
    (params callId eid ts0 ts1 port : String) (h : HandlerOutcome) (t0 t1 : ℚ)
    (rs : List String) (hrs : tool.requiredSettings = some rs)
    (hmiss : ∃ p ∈ rs, jOptTruthy (getSettingValue s p) = false) :
    (wrappedCall tool s params h callId eid ts0 ts1 port t0 t1).handlerCalls = 0 ∧
    (wrappedCall tool s params h callId eid ts0 ts1 port t0 t1).result.isError = true ∧
    ((wrappedCall tool s params h callId eid ts0 ts1 port t0 t1).events.filter
        (fun e => e.type = EvType.tool_error)).length = 1 ∧
    (∃ p, p ∈ rs ∧ jOptTruthy (getSettingValue s p) = false ∧
      ∀ e ∈ (wrappedCall tool s params h callId eid ts0 ts1 port t0 t1).events,
        e.type = EvType.tool_error → e.error = some ("Missing setting: " ++ p)) := by
  have hfind : ∃ p, firstMissing tool s = some p := by
    rw [← Option.isSome_iff_exists]
    unfold firstMissing
    rw [hrs, Option.getD_some, List.find?_isSome]
    obtain ⟨p, hp, hfalse⟩ := hmiss
    exact ⟨p, hp, by rw [hfalse]; rfl⟩
  obtain ⟨p, hp⟩ := hfind
  have hmem : p ∈ rs := by
    have := List.mem_of_find?_eq_some (p := fun q => !(jOptTruthy (getSettingValue s q)))
      (by unfold firstMissing at hp; rwa [hrs, Option.getD_some] at hp)
    exact this
  have hfalse : jOptTruthy (getSettingValue s p) = false := by
    have := List.find?_some (p := fun q => !(jOptTruthy (getSettingValue s q)))
      (by unfold firstMissing at hp; rwa [hrs, Option.getD_some] at hp)
    simpa using this
  unfold wrappedCall
  rw [hp]
  refine ⟨rfl, rfl, by simp, p, hmem, hfalse, ?_⟩
  intro e he htype
  simp only [List.mem_cons, List.not_mem_nil, or_false] at he
  rcases he with rfl | rfl
  · simp at htype
  · rfl

theorem C3_guard_short_circuit_witness :
    ((wrappedCall sampleTool { apiKeys := [], database := [], notes := [], tools := [] }
        "\x7b\x7d" (.ok { content := ["unused"] })
        "id1" "id2" "T0" "T1" "3713" 10 25).handlerCalls = 0) ∧
    ((wrappedCall sampleTool { apiKeys := [], database := [], notes := [], tools := [] }
        "\x7b\x7d" (.ok { content := ["unused"] })
        "id1" "id2" "T0" "T1" "3713" 10 25).result.isError = true) :=
  have h := C3_guard_short_circuit sampleTool
    { apiKeys := [], database := [], notes := [], tools := [] }
    "\x7b\x7d" "id1" "id2" "T0" "T1" "3713" (.ok { content := ["unused"] }) 10 25
    ["apiKeys.perplexity"] rfl (by decide)
  ⟨h.1, h.2.1⟩

/-! ## Telemetry bus (src/events.ts `EventBus`)

The bus mutates synchronously inside `emit`; subscriber callbacks never
touch the bus state (each is isolated by its own `try`/`catch`), so the
subscriber set is not part of the model. -/

structure ToolStats where
  name : String
  category : String
  totalCalls : Nat
  successCount : Nat
  errorCount : Nat
  lastInvoked : Option String
  avgDuration : ℚ
deriving DecidableEq, Repr

structure AggregateStats where
  totalInvocations : Nat
  successCount : Nat
  errorCount : Nat
  tools : List (String × ToolStats)

structure SessionInfo where
  sessionId : String
  clientName : String
  connectedAt : String

structure TimeseriesPoint where
  timestamp : String
  tool : String
  duration : ℚ
  success : Bool
deriving DecidableEq, Repr

structure BusState where
  recentEvents : List Event
  timeseries : List TimeseriesPoint
  stats : AggregateStats
  sessions : List (String × SessionInfo)

def maxRecent : Nat := 200

def maxTimeseries : Nat := 1000

/-- `push` followed by a conditional `shift()`: append, and evict the oldest
entry when the bound is exceeded. -/
def pushBounded {α : Type} (l : List α) (x : α) (m : Nat) : List α :=
  if m < (l ++ [x]).length then (l ++ [x]).tail else l ++ [x]

/-- JavaScript truthiness of `event.tool`. -/
def evToolTruthy (e : Event) : Bool :=
  match e.tool with
  | some t => decide (t ≠ "")
  | none => false

/-- JavaScript truthiness of `event.sessionId`. -/
def evSessionTruthy (e : Event) : Bool :=
  match e.sessionId with
  | some t => decide (t ≠ "")
  | none => false

/-- `updateToolStats(event, success)`: create the record on first sight,
bump the counters, and fold the duration into the running average with
`avg = (avg * (totalCalls - 1) + duration) / totalCalls`. -/
def updateToolStats (stats : AggregateStats) (e : Event) (success : Bool) :
    AggregateStats :=
  let name := e.tool.getD ""
  let ts0 : ToolStats :=
    match objGet stats.tools name with
    | some t => t
    | none =>
        { name := name,
          category :=
            (match e.category with
             | some c => if c = "" then "unknown" else c
             | none => "unknown"),
          totalCalls := 0, successCount := 0, errorCount := 0,
          lastInvoked := none, avgDuration := 0 }
  let ts1 : ToolStats :=
    { ts0 with
      totalCalls := ts0.totalCalls + 1,
      successCount := if success then ts0.successCount + 1 else ts0.successCount,
      errorCount := if success then ts0.errorCount else ts0.errorCount + 1,
      lastInvoked := some e.timestamp }
  let ts2 : ToolStats :=
    match e.duration with
    | some d =>
        { ts1 with
          avgDuration :=
            (ts1.avgDuration * ((ts1.totalCalls : ℚ) - 1) + d) / (ts1.totalCalls : ℚ) }
    | none => ts1
  { stats with tools := objSet stats.tools name ts2 }

/-- The timeseries sample built from a result/error event. -/
def tsPoint (e : Event) (success : Bool) : TimeseriesPoint :=
  { timestamp := e.timestamp, tool := e.tool.getD "",
    duration := e.duration.getD 0, success := success }

/-- `recordTimeseries(event, success)`: append a bounded sample. -/
def recordTimeseries (l : List TimeseriesPoint) (e : Event) (success : Bool) :
    List TimeseriesPoint :=
  pushBounded l (tsPoint e success) maxTimeseries

/-- `emit(event)`: append to the bounded recent history; for a
`tool_result`/`tool_error` with a named tool, bump the global counters,
update the tool's running stats and append a timeseries sample; maintain the
session map on connect/disconnect. -/
def emit (st : BusState) (e : Event) : BusState :=
  let st1 : BusState :=
    { st with recentEvents := pushBounded st.recentEvents e maxRecent }
  let st2 : BusState :=
    match e.type, evToolTruthy e with
    | .tool_result, true =>
        { st1 with
          stats := updateToolStats
            { st1.stats with
              totalInvocations := st1.stats.totalInvocations + 1,
              successCount := st1.stats.successCount + 1 } e true,
          timeseries := recordTimeseries st1.timeseries e true }
    | .tool_error, true =>
        { st1 with
          stats := updateToolStats
            { st1.stats with
              totalInvocations := st1.stats.totalInvocations + 1,
              errorCount := st1.stats.errorCount + 1 } e false,
          timeseries := recordTimeseries st1.timeseries e false }
    | _, _ => st1
  match e.type, evSessionTruthy e with
  | .session_connect, true =>
      { st2 with
        sessions := objSet st2.sessions (e.sessionId.getD "")
          { sessionId := e.sessionId.getD "",
            clientName :=
              (match e.clientName with
               | some c => if c = "" then "Unknown" else c
               | none => "Unknown"),
            connectedAt := e.timestamp } }
  | .session_disconnect, true =>
      { st2 with sessions := objDelete st2.sessions (e.sessionId.getD "") }
  | _, _ => st2

def emitAll (st : BusState) (evs : List Event) : BusState :=
  evs.foldl emit st

def initialBus : BusState :=
  { recentEvents := [], timeseries := [],
    stats := { totalInvocations := 0, successCount := 0, errorCount := 0, tools := [] },
    sessions := [] }

def statsFor (st : BusState) (name : String) : Option ToolStats :=
  objGet st.stats.tools name

/-! ### Association-list lemmas -/

lemma objGet_objSet_self {α : Type} (l : List (String × α)) (k : String) (v : α) :
    objGet (objSet l k v) k = some v := by
  induction l with
  | nil => simp [objSet, objGet]
  | cons kv rest ih =>
      by_cases h : kv.1 = k
      · obtain ⟨k2, v2⟩ := kv
        simp_all [objSet, objGet]
      · obtain ⟨k2, v2⟩ := kv
        simp only at h
        simp [objSet, objGet, h, ih]

lemma objGet_objSet_ne {α : Type} (l : List (String × α)) (k k2 : String) (v : α)
    (h : k ≠ k2) : objGet (objSet l k v) k2 = objGet l k2 := by
  induction l with
  | nil => simp [objSet, objGet, h]
  | cons kv rest ih =>
      obtain ⟨k3, v3⟩ := kv
      by_cases h3 : k3 = k
      · subst h3
        simp [objSet, objGet, h]
      · simp [objSet, objGet, h3, ih]

/-! ### Running-statistics measures

The incremental-mean argument tracks, for a tool's optional stats record,
the call count, the duration-weighted sum `avg * totalCalls`, and the
success/error split. -/

def mCalls : Option ToolStats → Nat
  | none => 0
  | some t => t.totalCalls

def mWeighted : Option ToolStats → ℚ
  | none => 0
  | some t => t.avgDuration * (t.totalCalls : ℚ)

def mSucc : Option ToolStats → Nat
  | none => 0
  | some t => t.successCount

def mErr : Option ToolStats → Nat
  | none => 0
  | some t => t.errorCount

lemma isSome_of_mCalls_pos (o : Option ToolStats) (h : 0 < mCalls o) :
    o.isSome = true := by
  cases o with
  | none => simp [mCalls] at h
  | some t => rfl

lemma updateToolStats_measures (stats : AggregateStats) (e : Event) (b : Bool)
    (name : String) (d : ℚ) (htool : e.tool = some name) (hdur : e.duration = some d) :
    mCalls (objGet (updateToolStats stats e b).tools name)
        = mCalls (objGet stats.tools name) + 1 ∧
    mWeighted (objGet (updateToolStats stats e b).tools name)
        = mWeighted (objGet stats.tools name) + d ∧
    mSucc (objGet (updateToolStats stats e b).tools name)
        + mErr (objGet (updateToolStats stats e b).tools name)
        = mSucc (objGet stats.tools name) + mErr (objGet stats.tools name) + 1 := by
  unfold updateToolStats
  rw [htool, hdur]
  simp only [Option.getD_some]
  have key : ∀ (ts0 : ToolStats), objGet stats.tools name = some ts0 ∨
      (objGet stats.tools name = none ∧ ts0.totalCalls = 0 ∧ ts0.successCount = 0 ∧
        ts0.errorCount = 0 ∧ ts0.avgDuration = 0) →
      True := fun _ _ => trivial
  clear key
  cases hobj : objGet stats.tools name with
  | none =>
      rw [objGet_objSet_self]
      constructor
      · simp [mCalls]
      constructor
      · simp only [mWeighted]
        push_cast
        ring
      · cases b <;> simp [mSucc, mErr]
  | some ts0 =>
      rw [objGet_objSet_self]
      refine ⟨by simp [mCalls], ?_, by cases b <;> simp [mSucc, mErr] <;> ring⟩
      simp only [mWeighted]
      have hne : ((ts0.totalCalls : ℚ) + 1) ≠ 0 := by positivity
      push_cast
      field_simp

lemma emit_stats_result (st : BusState) (e : Event)
    (h : e.type = EvType.tool_result) (ht : evToolTruthy e = true) :
    (emit st e).stats = updateToolStats
      { st.stats with
        totalInvocations := st.stats.totalInvocations + 1,
        successCount := st.stats.successCount + 1 } e true := by
  unfold emit
  simp [h, ht]

lemma emit_stats_error (st : BusState) (e : Event)
    (h : e.type = EvType.tool_error) (ht : evToolTruthy e = true) :
    (emit st e).stats = updateToolStats
      { st.stats with
        totalInvocations := st.stats.totalInvocations + 1,
        errorCount := st.stats.errorCount + 1 } e false := by
  unfold emit
  simp [h, ht]

lemma statsFor_emit_measures (st : BusState) (e : Event) (name : String)
    (hname : name ≠ "") (htool : e.tool = some name)
    (htype : e.type = EvType.tool_result ∨ e.type = EvType.tool_error)
    (d : ℚ) (hdur : e.duration = some d) :
    mCalls (statsFor (emit st e) name) = mCalls (statsFor st name) + 1 ∧
    mWeighted (statsFor (emit st e) name) = mWeighted (statsFor st name) + d ∧
    mSucc (statsFor (emit st e) name) + mErr (statsFor (emit st e) name)
        = mSucc (statsFor st name) + mErr (statsFor st name) + 1 := by
  have ht : evToolTruthy e = true := by
    unfold evToolTruthy
    rw [htool]
    simpa using hname
  rcases htype with h | h
  · have hst := emit_stats_result st e h ht
    unfold statsFor
    rw [hst]
    exact updateToolStats_measures _ e true name d htool hdur
  · have hst := emit_stats_error st e h ht
    unfold statsFor
    rw [hst]
    exact updateToolStats_measures _ e false name d htool hdur

lemma emitAll_measures (name : String) (hname : name ≠ "") :
    ∀ (evs : List Event) (st : BusState),
    (∀ e ∈ evs, (e.type = EvType.tool_result ∨ e.type = EvType.tool_error) ∧
        e.tool = some name ∧ e.duration.isSome = true) →
    mCalls (statsFor (emitAll st evs) name)
        = mCalls (statsFor st name) + evs.length ∧
    mWeighted (statsFor (emitAll st evs) name)
        = mWeighted (statsFor st name) + (evs.map (fun e => e.duration.getD 0)).sum ∧
    mSucc (statsFor (emitAll st evs) name) + mErr (statsFor (emitAll st evs) name)
        = mSucc (statsFor st name) + mErr (statsFor st name) + evs.length := by
  intro evs
  induction evs with
  | nil => intro st _; simp [emitAll]
  | cons e rest ih =>
      intro st hq
      obtain ⟨htype, htool, hdur⟩ := hq e (List.mem_cons_self e rest)
      obtain ⟨d, hd⟩ := Option.isSome_iff_exists.mp hdur
      have hstep := statsFor_emit_measures st e name hname htool htype d hd
      have hrest := ih (emit st e) (fun x hx => hq x (List.mem_cons_of_mem e hx))
      have hfold : emitAll st (e :: rest) = emitAll (emit st e) rest := rfl
      rw [hfold]
      refine ⟨?_, ?_, ?_⟩
      · rw [hrest.1, hstep.1]
        simp [Nat.add_assoc, Nat.add_comm 1 rest.length]
      · rw [hrest.2.1, hstep.2.1]
        simp only [List.map_cons, List.sum_cons, hd, Option.getD_some]
        ring
      · rw [hrest.2.2, hstep.2.2]
        simp only [List.length_cons]
        omega

/-- C6: after any sequence of `tool_result`/`tool_error` events for a tool,
each carrying a duration, the tool's recorded `avgDuration` equals the
arithmetic mean of the durations; the value is the same for every
permutation of the sequence; and `successCount + errorCount = totalCalls`. -/
theorem C6_running_mean (name : String) (evs : List Event)
    (hname : name ≠ "") (hlen : 0 < evs.length)
    (hq : ∀ e ∈ evs, (e.type = EvType.tool_result ∨ e.type = EvType.tool_error) ∧
        e.tool = some name ∧ e.duration.isSome = true) :
    ∃ ts, statsFor (emitAll initialBus evs) name = some ts ∧
      ts.totalCalls = evs.length ∧
      ts.avgDuration = (evs.map (fun e => e.duration.getD 0)).sum / (evs.length : ℚ) ∧
      ts.successCount + ts.errorCount = ts.totalCalls ∧
      ∀ evs2, evs.Perm evs2 →
        ∃ ts2, statsFor (emitAll initialBus evs2) name = some ts2 ∧
          ts2.avgDuration = ts.avgDuration := by
  have hinit : statsFor initialBus name = none := rfl
  have key : ∀ (l : List Event),
      (∀ e ∈ l, (e.type = EvType.tool_result ∨ e.type = EvType.tool_error) ∧
          e.tool = some name ∧ e.duration.isSome = true) →
      0 < l.length →
      ∃ ts, statsFor (emitAll initialBus l) name = some ts ∧
        ts.totalCalls = l.length ∧
        ts.avgDuration = (l.map (fun e => e.duration.getD 0)).sum / (l.length : ℚ) ∧
        ts.successCount + ts.errorCount = ts.totalCalls := by
    intro l hl hllen
    have hm := emitAll_measures name hname l initialBus hl
    rw [hinit] at hm
    have hsome : (statsFor (emitAll initialBus l) name).isSome = true := by
      apply isSome_of_mCalls_pos
      rw [hm.1]
      simp only [mCalls]
      omega
    obtain ⟨ts, hts⟩ := Option.isSome_iff_exists.mp hsome
    rw [hts] at hm
    simp only [mCalls, mWeighted, mSucc, mErr] at hm
    have hcalls : ts.totalCalls = l.length := by
      have := hm.1
      omega
    have hw : ts.avgDuration * (ts.totalCalls : ℚ)
        = (l.map (fun e => e.duration.getD 0)).sum := by
      have := hm.2.1
      linarith
    have hse : ts.successCount + ts.errorCount = ts.totalCalls := by
      have := hm.2.2
      omega
    refine ⟨ts, hts, hcalls, ?_, hse⟩
    have hlq : ((l.length : ℚ)) ≠ 0 := by
      exact_mod_cast Nat.pos_iff_ne_zero.mp hllen
    rw [eq_div_iff hlq, ← hw, hcalls]
  obtain ⟨ts, hts, hcalls, havg, hsplit⟩ := key evs hq hlen
  refine ⟨ts, hts, hcalls, havg, hsplit, ?_⟩
  intro evs2 hperm
  have hq2 : ∀ e ∈ evs2, (e.type = EvType.tool_result ∨ e.type = EvType.tool_error) ∧
      e.tool = some name ∧ e.duration.isSome = true :=
    fun e he => hq e (hperm.symm.subset he)
  have hlen2 : 0 < evs2.length := by rw [← hperm.length_eq]; exact hlen
  obtain ⟨ts2, hts2, _, havg2, _⟩ := key evs2 hq2 hlen2
  refine ⟨ts2, hts2, ?_⟩
  rw [havg2, havg, (hperm.map (fun e => e.duration.getD 0)).sum_eq, hperm.length_eq]

/-- Two concrete result/error events used to instantiate
`C6_running_mean`. -/
def sampleToolEvents : List Event :=
  [{ id := "a", type := EvType.tool_result, timestamp := "t1",
     tool := some "npm_info", duration := some 4 },
   { id := "b", type := EvType.tool_error, timestamp := "t2",
     tool := some "npm_info", duration := some 2, error := some "boom" }]

/-! ### Ring-buffer bounds (C7) -/

lemma pushBounded_length_le {α : Type} (l : List α) (x : α) (m : Nat)
    (h : l.length ≤ m) : (pushBounded l x m).length ≤ m := by
  unfold pushBounded
  by_cases hc : m < (l ++ [x]).length
  · rw [if_pos hc]
    simp only [List.length_tail, List.length_append, List.length_singleton] at hc ⊢
    omega
  · rw [if_neg hc]
    simp only [List.length_append, List.length_singleton] at hc ⊢
    omega

lemma pushBounded_at_cap {α : Type} (l : List α) (x : α) (m : Nat)
    (hm : 0 < m) (h : l.length = m) : pushBounded l x m = l.tail ++ [x] := by
  unfold pushBounded
  have hc : m < (l ++ [x]).length := by
    simp [List.length_append, h]
  simp only [hc, if_true]
  cases l with
  | nil => simp at h; omega
  | cons a rest => simp

lemma emit_recentEvents (st : BusState) (e : Event) :
    (emit st e).recentEvents = pushBounded st.recentEvents e maxRecent := by
  unfold emit
  cases h : e.type <;> cases ht : evToolTruthy e <;> cases hs : evSessionTruthy e <;>
    simp [h, ht, hs]

lemma emit_timeseries_eq (st : BusState) (e : Event) :
    (emit st e).timeseries = st.timeseries ∨
    ((e.type = EvType.tool_result ∨ e.type = EvType.tool_error) ∧
      evToolTruthy e = true ∧
      (emit st e).timeseries
        = pushBounded st.timeseries
            (tsPoint e (decide (e.type = EvType.tool_result))) maxTimeseries) := by
  unfold emit
  cases h : e.type <;> cases ht : evToolTruthy e <;> cases hs : evSessionTruthy e <;>
    simp [h, ht, hs, recordTimeseries]

/-- C7: the recent-event ring never exceeds its capacity of 200 and the
timeseries ring never exceeds its capacity of 1000; an emit at capacity
evicts exactly the oldest entry (first-in-first-out), leaving the newly
emitted entry present and the oldest pre-existing entry absent. -/
theorem C7_ring_capacity (st : BusState) (e : Event) :
    (st.recentEvents.length ≤ 200 → (emit st e).recentEvents.length ≤ 200) ∧
    (st.timeseries.length ≤ 1000 → (emit st e).timeseries.length ≤ 1000) ∧
    (st.recentEvents.length = 200 →
      (emit st e).recentEvents = st.recentEvents.tail ++ [e] ∧
      e ∈ (emit st e).recentEvents) ∧
    (st.recentEvents.length = 200 →
      ∀ h0, st.recentEvents.head? = some h0 → h0 ∉ st.recentEvents.tail →
        h0 ≠ e → h0 ∉ (emit st e).recentEvents) ∧
    ((e.type = EvType.tool_result ∨ e.type = EvType.tool_error) →
      evToolTruthy e = true → st.timeseries.length = 1000 →
      (emit st e).timeseries
          = st.timeseries.tail ++ [tsPoint e (decide (e.type = EvType.tool_result))] ∧
      tsPoint e (decide (e.type = EvType.tool_result)) ∈ (emit st e).timeseries) ∧
    ((e.type = EvType.tool_result ∨ e.type = EvType.tool_error) →
      evToolTruthy e = true → st.timeseries.length = 1000 →
      ∀ p0, st.timeseries.head? = some p0 → p0 ∉ st.timeseries.tail →
        p0 ≠ tsPoint e (decide (e.type = EvType.tool_result)) →
        p0 ∉ (emit st e).timeseries) := by
  have hrec := emit_recentEvents st e
  have hts := emit_timeseries_eq st e
  have hts_push : (e.type = EvType.tool_result ∨ e.type = EvType.tool_error) →
      evToolTruthy e = true →
      (emit st e).timeseries
        = pushBounded st.timeseries
            (tsPoint e (decide (e.type = EvType.tool_result))) maxTimeseries := by
    intro htype htool
    rcases htype with h | h <;>
      · unfold emit
        cases hs : evSessionTruthy e <;> simp [h, htool, hs, recordTimeseries]
  refine ⟨?_, ?_, ?_, ?_, ?_, ?_⟩
  · intro h
    rw [hrec]
    exact pushBounded_length_le _ _ _ h
  · intro h
    rcases hts with hsame | ⟨_, _, hpush⟩
    · rw [hsame]; exact h
    · rw [hpush]; exact pushBounded_length_le _ _ _ h
  · intro h
    rw [hrec]
    unfold maxRecent
    rw [pushBounded_at_cap _ _ _ (by norm_num) h]
    exact ⟨rfl, by simp⟩
  · intro h h0 hhead hnotin hne
    rw [hrec]
    unfold maxRecent
    rw [pushBounded_at_cap _ _ _ (by norm_num) h]
    simp only [List.mem_append, List.mem_singleton]
    rintro (hin | rfl)
    · exact hnotin hin
    · exact hne rfl
  · intro htype htool hlen
    rw [hts_push htype htool]
    unfold maxTimeseries
    rw [pushBounded_at_cap _ _ _ (by norm_num) hlen]
    exact ⟨rfl, by simp⟩
  · intro htype htool hlen p0 hhead hnotin hne
    rw [hts_push htype htool]
    unfold maxTimeseries
    rw [pushBounded_at_cap _ _ _ (by norm_num) hlen]
    simp only [List.mem_append, List.mem_singleton]
    rintro (hin | rfl)
    · exact hnotin hin
    · exact hne rfl

/-- Concrete states at exactly both capacities, with distinguishable oldest
entries, used to instantiate `C7_ring_capacity`. -/
def c7EvOld : Event :=
  { id := "old", type := EvType.server_start, timestamp := "t0" }

def c7EvFill : Event :=
  { id := "fill", type := EvType.server_start, timestamp := "t0" }

def c7Event : Event :=
  { id := "new", type := EvType.tool_result, timestamp := "t9",
    tool := some "npm_info", duration := some 7 }

def c7PtOld : TimeseriesPoint :=
  { timestamp := "p0", tool := "x", duration := 0, success := true }

def c7PtFill : TimeseriesPoint :=
  { timestamp := "p1", tool := "x", duration := 0, success := true }

def c7Bus : BusState :=
  { recentEvents := c7EvOld :: List.replicate 199 c7EvFill,
    timeseries := c7PtOld :: List.replicate 999 c7PtFill,
    stats := { totalInvocations := 0, successCount := 0, errorCount := 0, tools := [] },
    sessions := [] }

theorem C7_ring_capacity_witness :
    ((emit c7Bus c7Event).recentEvents.length ≤ 200) ∧
    ((emit c7Bus c7Event).timeseries.length ≤ 1000) ∧
    ((emit c7Bus c7Event).recentEvents = c7Bus.recentEvents.tail ++ [c7Event]) ∧
    (c7Event ∈ (emit c7Bus c7Event).recentEvents) ∧
    (c7EvOld ∉ (emit c7Bus c7Event).recentEvents) ∧
    ((emit c7Bus c7Event).timeseries
        = c7Bus.timeseries.tail
            ++ [tsPoint c7Event (decide (c7Event.type = EvType.tool_result))]) ∧
    (tsPoint c7Event (decide (c7Event.type = EvType.tool_result))
        ∈ (emit c7Bus c7Event).timeseries) ∧
    (c7PtOld ∉ (emit c7Bus c7Event).timeseries) := by
  have h := C7_ring_capacity c7Bus c7Event
  have hlenr : c7Bus.recentEvents.length = 200 := by
    show (c7EvOld :: List.replicate 199 c7EvFill).length = 200
    rw [List.length_cons, List.length_replicate]
  have hlent : c7Bus.timeseries.length = 1000 := by
    show (c7PtOld :: List.replicate 999 c7PtFill).length = 1000
    rw [List.length_cons, List.length_replicate]
  have htype : c7Event.type = EvType.tool_result ∨ c7Event.type = EvType.tool_error :=
    Or.inl rfl
  have htool : evToolTruthy c7Event = true := by decide
  have hnotinr : c7EvOld ∉ c7Bus.recentEvents.tail := by
    rw [show c7Bus.recentEvents.tail = List.replicate 199 c7EvFill from rfl]
    rw [List.mem_replicate]
    rintro ⟨-, hcon⟩
    exact absurd hcon (by decide)
  have hnotint : c7PtOld ∉ c7Bus.timeseries.tail := by
    rw [show c7Bus.timeseries.tail = List.replicate 999 c7PtFill from rfl]
    rw [List.mem_replicate]
    rintro ⟨-, hcon⟩
    exact absurd hcon (by decide)
  refine ⟨h.1 (le_of_eq hlenr), h.2.1 (le_of_eq hlent),
          (h.2.2.1 hlenr).1, (h.2.2.1 hlenr).2,
          h.2.2.2.1 hlenr c7EvOld rfl hnotinr (by decide),
          (h.2.2.2.2.1 htype htool hlent).1,
          (h.2.2.2.2.1 htype htool hlent).2,
          h.2.2.2.2.2 htype htool hlent c7PtOld rfl hnotint (by decide)⟩

theorem C6_running_mean_witness :
    ∃ ts, statsFor (emitAll initialBus sampleToolEvents) "npm_info" = some ts ∧
      ts.totalCalls = sampleToolEvents.length ∧
      ts.avgDuration
          = (sampleToolEvents.map (fun e => e.duration.getD 0)).sum
              / (sampleToolEvents.length : ℚ) ∧
      ts.successCount + ts.errorCount = ts.totalCalls ∧
      ∀ evs2, sampleToolEvents.Perm evs2 →
        ∃ ts2, statsFor (emitAll initialBus evs2) "npm_info" = some ts2 ∧
          ts2.avgDuration = ts.avgDuration :=
  C6_running_mean "npm_info" sampleToolEvents (by decide) (by decide)
    (by
      intro e he
      simp only [sampleToolEvents, List.mem_cons, List.not_mem_nil, or_false] at he
      rcases he with rfl | rfl <;> simp)

/-! ## Update manager (src/update.ts)

`checkForUpdate` and `performUpdate` perform network and filesystem I/O;
fetch results, `Date`-free hashing, and rename success are passed in as
explicit data.  The filesystem is the record of the three paths the code
manipulates: the install path, its `.tmp` sibling, and its `.bak` sibling. -/

/-- Parse the digits of a version component. -/
def digitsToNat : Option Nat → List Char → Option Nat
  | acc, [] => acc
  | acc, c :: rest =>
      digitsToNat (acc.bind (fun n =>
        if c.isDigit then some (n * 10 + (c.toNat - '0'.toNat)) else none)) rest

/-- JavaScript `Number(s) || 0` on a version component: the empty string and
non-numeric strings (NaN) collapse to 0.  Components are integer strings
(semver pieces); other JavaScript numeric spellings do not occur here. -/
def jsNumOr0 (s : String) : Int :=
  match s.data with
  | [] => 0
  | '-' :: rest =>
      match digitsToNat (some 0) rest with
      | some n => -(n : Int)
      | none => 0
  | cs =>
      match digitsToNat (some 0) cs with
      | some n => (n : Int)
      | none => 0

/-- Strip a single leading `v` (`replace(/^v/, "")`). -/
def stripLeadingV (s : String) : String :=
  match s.data with
  | 'v' :: rest => String.mk rest
  | _ => s

/-- `a.replace(/^v/,"").split(".").map(Number)` with the `|| 0` collapse
applied per component. -/
def versionComponents (s : String) : List Int :=
  (jsSplitOnDots (stripLeadingV s)).map jsNumOr0

/-- The three-round comparison loop of `isNewer`, unrolled. -/
def cmp3 (pa pb : List Int) : Bool :=
  if pb.getD 0 0 > pa.getD 0 0 then true
  else if pb.getD 0 0 < pa.getD 0 0 then false
  else if pb.getD 1 0 > pa.getD 1 0 then true
  else if pb.getD 1 0 < pa.getD 1 0 then false
  else if pb.getD 2 0 > pa.getD 2 0 then true
  else if pb.getD 2 0 < pa.getD 2 0 then false
  else false

/-- `isNewer(a, b)`: true when `b` is strictly newer than `a`. -/
def isNewer (a b : String) : Bool :=
  cmp3 (versionComponents a) (versionComponents b)

structure ReleaseAsset where
  name : String
  browser_download_url : String

structure Release where
  tag_name : String
  assets : List ReleaseAsset

/-- Outcome of the GitHub "latest release" fetch. -/
inductive ReleaseFetch where
  | httpError (status : Nat) (body : String)
  | ok (release : Release)

structure UpdateInfo where
  current : String
  latest : String
  updateAvailable : Bool
  downloadUrl : String
  asset : String

/-- `checkForUpdate()`, parameterised by the running version, the
platform-derived asset name (`getAssetName()`), and the fetched release.
Returns `none` when the remote is not strictly newer. -/
def checkForUpdate (version assetName : String) (f : ReleaseFetch) :
    Except String (Option UpdateInfo) :=
  match f with
  | .httpError status body =>
      .error ("GitHub API returned " ++ toString status ++ ": " ++ body)
  | .ok release =>
      let latest := stripLeadingV release.tag_name
      if isNewer version latest then
        match release.assets.find? (fun a => a.name == assetName) with
        | none =>
            .error ("No release asset found for " ++ assetName ++ " in "
              ++ release.tag_name)
        | some a =>
            .ok (some { current := version, latest := latest,
                        updateAvailable := true,
                        downloadUrl := a.browser_download_url,
                        asset := assetName })
      else .ok none

/-- C8: the update check compares versions by a three-component numeric
comparison after stripping a leading `v`, treating non-numeric or missing
components as zero, and reports an update only when the remote is strictly
newer: `isNewer` is exactly lexicographic strict comparison of the first
three parsed components; non-numeric and missing components parse to 0; and
on current version `1.2.3`, remote tag `v1.2.3` yields no update while
remote tag `v1.3.0` yields an update with `latest = "1.3.0"`. -/
theorem C8_version_comparison :
    (∀ a b : String, isNewer a b = true ↔
      ((versionComponents b).getD 0 0 > (versionComponents a).getD 0 0 ∨
        ((versionComponents b).getD 0 0 = (versionComponents a).getD 0 0 ∧
          ((versionComponents b).getD 1 0 > (versionComponents a).getD 1 0 ∨
            ((versionComponents b).getD 1 0 = (versionComponents a).getD 1 0 ∧
              (versionComponents b).getD 2 0 > (versionComponents a).getD 2 0))))) ∧
    jsNumOr0 "beta" = 0 ∧
    versionComponents "1.2" = [1, 2] ∧
    isNewer "1.2" "1.2.1" = true ∧
    checkForUpdate "1.2.3" "mcpy-linux-x64"
        (.ok { tag_name := "v1.2.3",
               assets := [{ name := "mcpy-linux-x64", browser_download_url := "u" }] })
      = .ok none ∧
    (∃ info, checkForUpdate "1.2.3" "mcpy-linux-x64"
        (.ok { tag_name := "v1.3.0",
               assets := [{ name := "mcpy-linux-x64", browser_download_url := "u" }] })
      = .ok (some info) ∧ info.latest = "1.3.0" ∧ info.updateAvailable = true) := by
  refine ⟨?_, rfl, rfl, rfl, rfl, ?_⟩
  · intro a b
    unfold isNewer cmp3
    generalize (versionComponents a).getD 0 0 = a0
    generalize (versionComponents b).getD 0 0 = b0
    generalize (versionComponents a).getD 1 0 = a1
    generalize (versionComponents b).getD 1 0 = b1
    generalize (versionComponents a).getD 2 0 = a2
    generalize (versionComponents b).getD 2 0 = b2
    split_ifs with h1 h2 h3 h4 h5 h6 <;> simp <;> omega
  · exact ⟨_, rfl, rfl, rfl⟩

/-! ### performUpdate

The function's filesystem effects touch exactly three paths: `BINARY_PATH`,
`BINARY_PATH + ".tmp"` and `BINARY_PATH + ".bak"`.  A file is its content
plus its executable bit (`chmodSync(tmp, 0o755)`); `renameSync` moves the
file object between paths (overwriting the destination) and may fail, the
success of each rename being injected through an oracle.  `performUpdate`
returns the list of filesystem states after every mutating step (the trace,
starting from the initial state), the final state, and either success or
the thrown error message. -/

structure FileObj where
  content : String
  exec : Bool
deriving DecidableEq, Repr

structure FS where
  install : Option FileObj
  tmp : Option FileObj
  bak : Option FileObj
deriving DecidableEq, Repr

/-- Outcome of the binary download fetch. -/
inductive DownloadOutcome where
  | httpError (status : Nat)
  | ok (data : String)

/-- Outcome of the `SHA256SUMS` manifest fetch: unreachable (the fetch
throws), a non-OK HTTP response, or a body in which the line mentioning the
asset either parses to an expected hash or is absent. -/
inductive SumsOutcome where
  | unreachable
  | httpNotOk
  | ok (entry : Option String)

/-- Success of each fallible filesystem operation in the replace sequence. -/
structure FsOracle where
  backupRenameOk : Bool
  replaceRenameOk : Bool
  restoreRenameOk : Bool
  removeBakOk : Bool

structure UpdateRun where
  trace : List FS
  final : FS
  result : Except String Unit

/-- Steps 3–4 of `performUpdate`: chmod the temp file, back up any existing
binary, rename the temp file into place (restoring the backup on failure),
and remove the backup. -/
def replacePhase (tr : List FS) (fs : FS) (o : FsOracle) : UpdateRun :=
  let fsc : FS := { fs with tmp := fs.tmp.map (fun f => { f with exec := true }) }
  let tr := tr ++ [fsc]
  match fsc.install with
  | some _ =>
      if o.backupRenameOk then
        let fsb : FS := { fsc with install := none, bak := fsc.install }
        finishReplace (tr ++ [fsb]) fsb o
      else
        let fsx : FS := { fsc with tmp := none }
        { trace := tr ++ [fsx], final := fsx,
          result := .error "Failed to backup current binary" }
  | none => finishReplace tr fsc o
where
  /-- `renameSync(tmpPath, BINARY_PATH)` with rollback and backup removal. -/
  finishReplace (tr : List FS) (fs : FS) (o : FsOracle) : UpdateRun :=
    if o.replaceRenameOk then
      let fsr : FS := { fs with install := fs.tmp, tmp := none }
      match fsr.bak with
      | some _ =>
          if o.removeBakOk then
            let fsd : FS := { fsr with bak := none }
            { trace := tr ++ [fsr, fsd], final := fsd, result := .ok () }
          else
            { trace := tr ++ [fsr], final := fsr, result := .ok () }
      | none => { trace := tr ++ [fsr], final := fsr, result := .ok () }
    else
      let fs2 : FS :=
        match fs.bak with
        | some b =>
            if o.restoreRenameOk then { fs with install := some b, bak := none }
            else fs
        | none => fs
      let fs3 : FS := { fs2 with tmp := none }
      { trace := tr ++ [fs2, fs3], final := fs3,
        result := .error "Failed to install new binary" }

/-- `performUpdate(info)`: download to the temp path, verify the checksum
when a manifest entry exists (deleting the temp file and failing hard on a
mismatch; skipping verification when the manifest is unreachable, non-OK, or
has no entry), then atomically replace with backup-first discipline. -/
def performUpdate (fs0 : FS) (dl : DownloadOutcome) (sums : SumsOutcome)
    (hash : String → String) (o : FsOracle) : UpdateRun :=
  match dl with
  | .httpError status =>
      { trace := [fs0], final := fs0,
        result := .error ("Download failed: HTTP " ++ toString status) }
  | .ok data =>
      let fs1 : FS := { fs0 with tmp := some { content := data, exec := false } }
      match sums with
      | .ok (some expected) =>
          if hash data = expected then
            replacePhase [fs0, fs1] fs1 o
          else
            let fs2 : FS := { fs1 with tmp := none }
            { trace := [fs0, fs1, fs2], final := fs2,
              result := .error ("Checksum mismatch: expected " ++ expected
                ++ ", got " ++ hash data) }
      | _ => replacePhase [fs0, fs1] fs1 o

/-- Whether step 2 lets the run proceed past checksum verification. -/
def checksumPasses (sums : SumsOutcome) (h : String) : Bool :=
  match sums with
  | .ok (some expected) => h == expected
  | _ => true

/-- C5: on a checksum mismatch the call deletes the temp file and raises the
mismatch error before any chmod or rename: throughout the whole run the
install path and backup path are untouched and the temp file is never marked
executable, and afterwards the install path's content equals its content
before the call. -/
theorem C5_checksum_mismatch (fs0 : FS) (data expected : String)
    (hash : String → String) (o : FsOracle)
    (htmp : fs0.tmp = none) (hne : hash data ≠ expected) :
    (performUpdate fs0 (.ok data) (.ok (some expected)) hash o).result
        = .error ("Checksum mismatch: expected " ++ expected ++ ", got " ++ hash data) ∧
    (performUpdate fs0 (.ok data) (.ok (some expected)) hash o).final.tmp = none ∧
    (performUpdate fs0 (.ok data) (.ok (some expected)) hash o).final.install
        = fs0.install ∧
    (∀ st ∈ (performUpdate fs0 (.ok data) (.ok (some expected)) hash o).trace,
        st.install = fs0.install ∧ st.bak = fs0.bak ∧
        ∀ f, st.tmp = some f → f.exec = false) := by
  obtain ⟨i, t, b⟩ := fs0
  simp only at htmp
  subst htmp
  refine ⟨by simp [performUpdate, if_neg hne], by simp [performUpdate, if_neg hne],
    by simp [performUpdate, if_neg hne], ?_⟩
  simp only [performUpdate, if_neg hne]
  intro st hst
  simp only [List.mem_cons, List.not_mem_nil, or_false] at hst
  rcases hst with rfl | rfl | rfl
  · exact ⟨rfl, rfl, fun f hf => by simp at hf⟩
  · exact ⟨rfl, rfl, fun f hf => by
      simp only [Option.some.injEq] at hf
      rw [← hf]⟩
  · exact ⟨rfl, rfl, fun f hf => by simp at hf⟩

def c5FS : FS :=
  { install := some { content := "old", exec := true }, tmp := none, bak := none }

theorem C5_checksum_mismatch_witness :
    (performUpdate c5FS (.ok "new") (.ok (some "abc")) (fun _ => "ffff")
        { backupRenameOk := true, replaceRenameOk := true,
          restoreRenameOk := true, removeBakOk := true }).result
      = .error ("Checksum mismatch: expected " ++ "abc" ++ ", got "
          ++ (fun _ : String => "ffff") "new") ∧
    (performUpdate c5FS (.ok "new") (.ok (some "abc")) (fun _ => "ffff")
        { backupRenameOk := true, replaceRenameOk := true,
          restoreRenameOk := true, removeBakOk := true }).final.install
      = c5FS.install :=
  have h := C5_checksum_mismatch c5FS "new" "abc" (fun _ => "ffff")
    { backupRenameOk := true, replaceRenameOk := true,
      restoreRenameOk := true, removeBakOk := true } rfl (by decide)
  ⟨h.1, h.2.2.1⟩

/-- C4 as stated is false: with a binary present and every operation
succeeding, the trace contains the state between the backup rename and the
replace rename, where nothing is at the install path. -/
def c4FS : FS :=
  { install := some { content := "old", exec := true }, tmp := none, bak := none }

def c4Oracle : FsOracle :=
  { backupRenameOk := true, replaceRenameOk := true,
    restoreRenameOk := true, removeBakOk := true }

theorem C4_counterexample :
    ¬ (∀ st ∈ (performUpdate c4FS (.ok "new") (.ok none)
          (fun _ => "h") c4Oracle).trace,
        st.install.isSome = true) := by
  decide

lemma forall_mem_two {P : FS → Prop} (a b : FS) (ha : P a) (hb : P b) :
    ∀ st ∈ [a, b], P st := by
  intro st hst
  simp only [List.mem_cons, List.not_mem_nil, or_false] at hst
  rcases hst with rfl | rfl
  · exact ha
  · exact hb

lemma forall_mem_one {P : FS → Prop} (a : FS) (ha : P a) : ∀ st ∈ [a], P st := by
  intro st hst
  simp only [List.mem_cons, List.not_mem_nil, or_false] at hst
  rwa [hst]

lemma finishReplace_trace_preserves (tr : List FS) (fs : FS) (o : FsOracle)
    (orig : FileObj) (htmp : fs.tmp.isSome = true) (hbak : fs.bak = some orig)
    (htr : ∀ st ∈ tr, st.install.isSome = true ∨ st.bak = some orig) :
    ∀ st ∈ (replacePhase.finishReplace tr fs o).trace,
      st.install.isSome = true ∨ st.bak = some orig := by
  obtain ⟨i, t, b⟩ := fs
  simp only at htmp hbak
  subst hbak
  obtain ⟨tf, rfl⟩ := Option.isSome_iff_exists.mp htmp
  obtain ⟨obk, orp, ors, orm⟩ := o
  cases orp <;> cases ors <;> cases orm <;>
    · simp only [replacePhase.finishReplace, if_true, if_false, Bool.false_eq_true,
        reduceIte]
      rw [List.forall_mem_append]
      exact ⟨htr, by
        first
        | exact forall_mem_two _ _ (Or.inl rfl) (Or.inl rfl)
        | exact forall_mem_two _ _ (Or.inr rfl) (Or.inr rfl)
        | exact forall_mem_one _ (Or.inl rfl)⟩

lemma replacePhase_trace_preserves (tr : List FS) (fs : FS) (o : FsOracle)
    (orig : FileObj) (hfs : fs.install = some orig)
    (htmp : fs.tmp.isSome = true)
    (htr : ∀ st ∈ tr, st.install.isSome = true ∨ st.bak = some orig) :
    ∀ st ∈ (replacePhase tr fs o).trace,
      st.install.isSome = true ∨ st.bak = some orig := by
  obtain ⟨i, t, b⟩ := fs
  simp only at hfs htmp
  subst hfs
  obtain ⟨tf, rfl⟩ := Option.isSome_iff_exists.mp htmp
  have htr2 : ∀ st ∈ tr ++ [(⟨some orig, some { content := tf.content, exec := true }, b⟩ : FS)],
      st.install.isSome = true ∨ st.bak = some orig := by
    rw [List.forall_mem_append]
    exact ⟨htr, forall_mem_one _ (Or.inl rfl)⟩
  by_cases hbk : o.backupRenameOk = true
  · simp only [replacePhase, Option.map_some, hbk, if_true]
    refine finishReplace_trace_preserves _ _ _ orig ?_ ?_ ?_
    · rfl
    · rfl
    · rw [List.forall_mem_append]
      exact ⟨htr2, forall_mem_one _ (Or.inr rfl)⟩
  · simp only [replacePhase, Option.map_some, hbk, if_false, Bool.false_eq_true,
      reduceIte]
    rw [List.forall_mem_append]
    exact ⟨htr2, forall_mem_one _ (Or.inl rfl)⟩

/-- C4 amended: with a binary at the install path, every intermediate state
keeps the original binary available — at the install path or at the backup
path — until the new binary is installed; and if the replace rename fails
after the backup rename succeeded and the best-effort restore rename
succeeds, the original binary is back at the install path and the error is
raised.  (The momentary-absence reading is refuted by
`C4_counterexample`: between the backup rename and the replace rename the
install path itself is empty.) -/
theorem C4_backup_rollback (fs0 : FS) (dl : DownloadOutcome)
    (sums : SumsOutcome) (hash : String → String) (o : FsOracle)
    (orig : FileObj) (hinst : fs0.install = some orig) :
    (∀ st ∈ (performUpdate fs0 dl sums hash o).trace,
        st.install.isSome = true ∨ st.bak = some orig) ∧
    (∀ data, dl = .ok data → checksumPasses sums (hash data) = true →
      o.backupRenameOk = true → o.replaceRenameOk = false →
      o.restoreRenameOk = true →
      (performUpdate fs0 dl sums hash o).final.install = some orig ∧
      ∃ msg, (performUpdate fs0 dl sums hash o).result = .error msg) := by
  constructor
  · cases dl with
    | httpError status =>
        intro st hst
        simp only [performUpdate, List.mem_cons, List.not_mem_nil, or_false] at hst
        subst hst
        exact Or.inl (by rw [hinst]; rfl)
    | ok data =>
        have hbase : ∀ st ∈ [fs0, { fs0 with tmp := some { content := data, exec := false } }],
            st.install.isSome = true ∨ st.bak = some orig := by
          intro st hst
          simp only [List.mem_cons, List.not_mem_nil, or_false] at hst
          rcases hst with rfl | rfl
          · exact Or.inl (by rw [hinst]; rfl)
          · exact Or.inl (by simp [hinst])
        have hrepl := replacePhase_trace_preserves
          [fs0, { fs0 with tmp := some { content := data, exec := false } }]
          { fs0 with tmp := some { content := data, exec := false } } o orig
          (by simp [hinst]) rfl hbase
        cases sums with
        | unreachable => exact hrepl
        | httpNotOk => exact hrepl
        | ok entry =>
            cases entry with
            | none => exact hrepl
            | some expected =>
                by_cases hck : hash data = expected
                · simpa only [performUpdate, if_pos hck] using hrepl
                · intro st hst
                  simp only [performUpdate, if_neg hck, List.mem_cons,
                    List.not_mem_nil, or_false] at hst
                  rcases hst with rfl | rfl | rfl
                  · exact Or.inl (by rw [hinst]; rfl)
                  · exact Or.inl (by simp [hinst])
                  · exact Or.inl (by simp [hinst])
  · rintro data rfl hck hbk hrep hres
    obtain ⟨i, t, b⟩ := fs0
    simp only at hinst
    subst hinst
    obtain ⟨obk, orp, ors, orm⟩ := o
    simp only at hbk hrep hres
    subst hbk; subst hrep; subst hres
    have run : performUpdate ⟨some orig, t, b⟩ (.ok data) sums hash
        ⟨true, false, true, orm⟩
        = replacePhase [⟨some orig, t, b⟩, ⟨some orig, some ⟨data, false⟩, b⟩]
            ⟨some orig, some ⟨data, false⟩, b⟩ ⟨true, false, true, orm⟩ := by
      cases sums with
      | unreachable => rfl
      | httpNotOk => rfl
      | ok entry =>
          cases entry with
          | none => rfl
          | some expected =>
              have : hash data = expected := by
                simpa [checksumPasses] using hck
              simp [performUpdate, this]
    rw [run]
    exact ⟨rfl, _, rfl⟩

def c4RollbackOracle : FsOracle :=
  { backupRenameOk := true, replaceRenameOk := false,
    restoreRenameOk := true, removeBakOk := true }

theorem C4_backup_rollback_witness :
    (∀ st ∈ (performUpdate c4FS (.ok "new") (.ok none)
          (fun _ => "h") c4RollbackOracle).trace,
        st.install.isSome = true ∨ st.bak = some { content := "old", exec := true }) ∧
    ((performUpdate c4FS (.ok "new") (.ok none)
          (fun _ => "h") c4RollbackOracle).final.install
        = some { content := "old", exec := true } ∧
      ∃ msg, (performUpdate c4FS (.ok "new") (.ok none)
          (fun _ => "h") c4RollbackOracle).result = .error msg) :=
  have h := C4_backup_rollback c4FS (.ok "new") (.ok none) (fun _ => "h")
    c4RollbackOracle { content := "old", exec := true } rfl
  ⟨h.1, h.2 "new" rfl rfl rfl rfl rfl⟩

/-- C10: with nothing at the install path (first-time install) and no
stale backup, the backup rename is skipped entirely regardless of whether it
could succeed, the temp file is made executable and renamed directly into
the install path, the call succeeds, and no `.bak` file exists at any point
of the run. -/
theorem C10_first_install (fs0 : FS) (data : String) (sums : SumsOutcome)
    (hash : String → String) (o : FsOracle)
    (hinst : fs0.install = none) (hbak : fs0.bak = none)
    (hsum : checksumPasses sums (hash data) = true)
    (hrep : o.replaceRenameOk = true) :
    (performUpdate fs0 (.ok data) sums hash o).result = .ok () ∧
    (performUpdate fs0 (.ok data) sums hash o).final.install
        = some { content := data, exec := true } ∧
    (performUpdate fs0 (.ok data) sums hash o).final.bak = none ∧
    (performUpdate fs0 (.ok data) sums hash o).final.tmp = none ∧
    (∀ st ∈ (performUpdate fs0 (.ok data) sums hash o).trace, st.bak = none) := by
  obtain ⟨i, t, b⟩ := fs0
  simp only at hinst hbak
  subst hinst; subst hbak
  obtain ⟨obk, orp, ors, orm⟩ := o
  simp only at hrep
  subst hrep
  have run : performUpdate ⟨none, t, none⟩ (.ok data) sums hash
      ⟨obk, true, ors, orm⟩
      = { trace := [⟨none, t, none⟩, ⟨none, some ⟨data, false⟩, none⟩,
                    ⟨none, some ⟨data, true⟩, none⟩,
                    ⟨some ⟨data, true⟩, none, none⟩],
          final := ⟨some ⟨data, true⟩, none, none⟩,
          result := .ok () } := by
    cases sums with
    | unreachable => rfl
    | httpNotOk => rfl
    | ok entry =>
        cases entry with
        | none => rfl
        | some expected =>
            have : hash data = expected := by
              simpa [checksumPasses] using hsum
            simp [performUpdate, this]
            rfl
  rw [run]
  refine ⟨rfl, rfl, rfl, rfl, ?_⟩
  intro st hst
  simp only [List.mem_cons, List.not_mem_nil, or_false] at hst
  rcases hst with rfl | rfl | rfl | rfl <;> rfl

theorem C10_first_install_witness :
    (performUpdate { install := none, tmp := none, bak := none }
        (.ok "bin") (.ok none) (fun _ => "h")
        { backupRenameOk := false, replaceRenameOk := true,
          restoreRenameOk := false, removeBakOk := false }).result = .ok () ∧
    (performUpdate { install := none, tmp := none, bak := none }
        (.ok "bin") (.ok none) (fun _ => "h")
        { backupRenameOk := false, replaceRenameOk := true,
          restoreRenameOk := false, removeBakOk := false }).final.install
      = some { content := "bin", exec := true } ∧
    (performUpdate { install := none, tmp := none, bak := none }
        (.ok "bin") (.ok none) (fun _ => "h")
        { backupRenameOk := false, replaceRenameOk := true,
          restoreRenameOk := false, removeBakOk := false }).final.bak = none :=
  have h := C10_first_install { install := none, tmp := none, bak := none }
    "bin" (.ok none) (fun _ => "h")
    { backupRenameOk := false, replaceRenameOk := true,
      restoreRenameOk := false, removeBakOk := false } rfl rfl rfl rfl
  ⟨h.1, h.2.1, h.2.2.1⟩

/-! ## Settings merge and redaction (src/settings.ts)

`updateSettings(partial)` deep-merges a partial update into the stored
settings, skipping any value that starts with the mask `"***"` and deleting
keys whose submitted value is the empty string or `null`;
`redactSettings(settings)` is the masked view served to the UI.  The stored
settings are passed as an argument here (the source reads them from its
on-disk cache). -/

/-- `p` is a prefix of `s` character by character. -/
def listIsPrefix : List Char → List Char → Bool
  | [], _ => true
  | _ :: _, [] => false
  | a :: as, b :: bs => a == b && listIsPrefix as bs

/-- JavaScript `s.startsWith(p)`. -/
def jsStartsWith (s p : String) : Bool :=
  listIsPrefix p.data s.data

/-- JavaScript `v.slice(-4)` for strings longer than four characters. -/
def jsSliceLast4 (v : String) : String :=
  String.mk (v.data.drop (v.data.length - 4))

/-- The masked form of an API key: `"***" + val.slice(-4)` when longer than
four characters, else `"***"`. -/
def maskKey (v : String) : String :=
  if v.length > 4 then "***" ++ jsSliceLast4 v else "***"

/-- `value === "" || value === null`, the deletion test of the merge. -/
def isEmptyOrNull : JVal → Bool
  | .jstr s => decide (s = "")
  | .jnull => true
  | _ => false

/-- `typeof value === "string" && value.startsWith("***")`, the skip test. -/
def isMaskedString : JVal → Bool
  | .jstr t => jsStartsWith t "***"
  | _ => false

/-- Redaction of one database-config field: the truthy `password` field is
replaced by `"***"`, everything else is passed through. -/
def maskDbField (f : String) (v : JVal) : JVal :=
  if f = "password" ∧ jTruthy v = true then .jstr "***" else v

/-- A partial settings update (`Record<string, unknown>`): each section may
be absent, entry values may be `null` (`none`). -/
structure SettingsPatch where
  apiKeys : Option (List (String × Option String))
  database : Option (List (String × Option (List (String × JVal))))
  notes : Option (List (String × Option String))
  tools : Option (List (String × Bool))

/-- `redactSettings(settings)`: mask non-empty API keys and truthy database
passwords; notes and tool toggles pass through. -/
def redactSettings (s : Settings) : SettingsPatch :=
  { apiKeys := some (s.apiKeys.map (fun kv =>
      (kv.1, some (if kv.2 ≠ "" then maskKey kv.2 else kv.2)))),
    database := some (s.database.map (fun kv =>
      (kv.1, some (kv.2.map (fun fv => (fv.1, maskDbField fv.1 fv.2)))))),
    notes := some (s.notes.map (fun kv => (kv.1, some kv.2))),
    tools := some s.tools }

/-- One entry of the apiKeys merge loop: empty/null deletes, a masked value
is skipped, anything else is assigned. -/
def apiKeyStep (acc : List (String × String)) (kv : String × Option String) :
    List (String × String) :=
  match kv.2 with
  | none => objDelete acc kv.1
  | some v =>
      if v = "" then objDelete acc kv.1
      else if jsStartsWith v "***" then acc
      else objSet acc kv.1 v

def updateApiKeys (cur : List (String × String))
    (entries : List (String × Option String)) : List (String × String) :=
  entries.foldl apiKeyStep cur

/-- One entry of the per-database field merge loop. -/
def dbFieldStep (ex : List (String × JVal)) (fv : String × JVal) :
    List (String × JVal) :=
  if isEmptyOrNull fv.2 then objDelete ex fv.1
  else if isMaskedString fv.2 then ex
  else objSet ex fv.1 fv.2

def updateDbConfig (ex : List (String × JVal)) (cfg : List (String × JVal)) :
    List (String × JVal) :=
  cfg.foldl dbFieldStep ex

/-- One entry of the database merge loop: `null` deletes the whole config,
otherwise the fields are merged into the existing config (`|| {}`). -/
def dbEntryStep (acc : List (String × List (String × JVal)))
    (kv : String × Option (List (String × JVal))) :
    List (String × List (String × JVal)) :=
  match kv.2 with
  | none => objDelete acc kv.1
  | some cfg => objSet acc kv.1 (updateDbConfig ((objGet acc kv.1).getD []) cfg)

def updateDatabase (cur : List (String × List (String × JVal)))
    (entries : List (String × Option (List (String × JVal)))) :
    List (String × List (String × JVal)) :=
  entries.foldl dbEntryStep cur

def updateNotes (cur : List (String × String))
    (entries : List (String × Option String)) : List (String × String) :=
  entries.foldl apiKeyStep cur

/-- `Object.assign(current.tools, partial.tools)`. -/
def updateTools (cur : List (String × Bool)) (entries : List (String × Bool)) :
    List (String × Bool) :=
  entries.foldl (fun acc kv => objSet acc kv.1 kv.2) cur

/-- `updateSettings(partial)` over the stored settings `cur`. -/
def updateSettings (cur : Settings) (patch : SettingsPatch) : Settings :=
  { apiKeys :=
      match patch.apiKeys with
      | some entries => updateApiKeys cur.apiKeys entries
      | none => cur.apiKeys,
    database :=
      match patch.database with
      | some entries => updateDatabase cur.database entries
      | none => cur.database,
    notes :=
      match patch.notes with
      | some entries => updateNotes cur.notes entries
      | none => cur.notes,
    tools :=
      match patch.tools with
      | some entries => updateTools cur.tools entries
      | none => cur.tools }

/-- C9 as stated is false: an API key stored as the empty string survives
redaction unmasked (the empty string is falsy), and re-submitting it makes
the merge delete the key, so the stored value changes from `some ""` to
`none`. -/
def c9Settings : Settings :=
  { apiKeys := [("x", "")], database := [], notes := [], tools := [] }

theorem C9_counterexample :
    objGet (updateSettings c9Settings (redactSettings c9Settings)).apiKeys "x"
      ≠ objGet c9Settings.apiKeys "x" := by
  decide

lemma jsStartsWith_append_stars (t : String) :
    jsStartsWith ("***" ++ t) "***" = true := by
  unfold jsStartsWith
  rw [String.data_append]
  rw [show ("***" : String).data = ['*', '*', '*'] from rfl]
  simp [listIsPrefix]

lemma maskKey_startsWith (v : String) : jsStartsWith (maskKey v) "***" = true := by
  unfold maskKey
  split_ifs
  · exact jsStartsWith_append_stars _
  · decide

lemma maskKey_ne_empty (v : String) : maskKey v ≠ "" := by
  unfold maskKey
  split_ifs
  · intro h
    have hd := congrArg String.data h
    rw [String.data_append, show ("***" : String).data = ['*', '*', '*'] from rfl,
      show ("" : String).data = [] from rfl] at hd
    exact absurd hd (by simp)
  · decide

lemma foldl_fixed {α β : Type} (f : α → β → α) (l : List β)
    (h : ∀ x ∈ l, ∀ acc, f acc x = acc) : ∀ a : α, l.foldl f a = a := by
  induction l with
  | nil => intro a; rfl
  | cons x rest ih =>
      intro a
      rw [List.foldl_cons, h x (List.mem_cons_self x rest)]
      exact ih (fun y hy acc => h y (List.mem_cons_of_mem x hy) acc) a

lemma updateApiKeys_redacted (cur : List (String × String))
    (hvals : ∀ kv ∈ cur, kv.2 ≠ "") :
    updateApiKeys cur (cur.map (fun kv =>
        (kv.1, some (if kv.2 ≠ "" then maskKey kv.2 else kv.2)))) = cur := by
  apply foldl_fixed
  intro x hx acc
  obtain ⟨kv, hkv, rfl⟩ := List.mem_map.mp hx
  have hne := hvals kv hkv
  simp only [apiKeyStep, if_pos hne]
  rw [if_neg (maskKey_ne_empty kv.2), if_pos (maskKey_startsWith kv.2)]

lemma objGet_of_mem_nodup {α : Type} (l : List (String × α)) (k : String) (v : α)
    (hmem : (k, v) ∈ l) (hnd : (l.map Prod.fst).Nodup) : objGet l k = some v := by
  induction l with
  | nil => simp at hmem
  | cons kv rest ih =>
      obtain ⟨k2, v2⟩ := kv
      simp only [List.map_cons, List.nodup_cons] at hnd
      rcases List.mem_cons.mp hmem with heq | hmem2
      · obtain ⟨rfl, rfl⟩ := Prod.mk.injEq .. ▸ heq
        · simp [objGet]
      · have hk2 : k2 ≠ k := by
          rintro rfl
          exact hnd.1 (List.mem_map.mpr ⟨(k2, v), hmem2, rfl⟩)
        simp only [objGet, if_neg hk2]
        exact ih hmem2 hnd.2

/-- The per-config merge of a config's own redacted view preserves every
field lookup, provided the config has unique keys and no empty/null field
values. -/
lemma updateDbConfig_redacted (cfg0 : List (String × JVal))
    (hnd : (cfg0.map Prod.fst).Nodup)
    (hvals : ∀ fv ∈ cfg0, isEmptyOrNull fv.2 = false) :
    ∀ (entries : List (String × JVal)),
      (∀ e ∈ entries, e ∈ cfg0.map (fun fv => (fv.1, maskDbField fv.1 fv.2))) →
      ∀ ex, (∀ g, objGet ex g = objGet cfg0 g) →
      ∀ g, objGet (entries.foldl dbFieldStep ex) g = objGet cfg0 g := by
  intro entries
  induction entries with
  | nil => intro _ ex hex g; exact hex g
  | cons e rest ih =>
      intro hsub ex hex g
      rw [List.foldl_cons]
      apply ih (fun y hy => hsub y (List.mem_cons_of_mem e hy))
      obtain ⟨fv, hfv, rfl⟩ := List.mem_map.mp (hsub e (List.mem_cons_self e rest))
      intro g2
      unfold dbFieldStep maskDbField
      by_cases hp : fv.1 = "password" ∧ jTruthy fv.2 = true
      · rw [if_pos hp]
        rw [show isEmptyOrNull (.jstr "***") = false from rfl]
        rw [show isMaskedString (.jstr "***") = true from by decide]
        simp only [if_false, if_true, Bool.false_eq_true]
        exact hex g2
      · rw [if_neg hp, hvals fv hfv]
        simp only [Bool.false_eq_true, if_false]
        by_cases hm : isMaskedString fv.2 = true
        · rw [if_pos hm]
          exact hex g2
        · rw [if_neg hm]
          by_cases hg : fv.1 = g2
          · subst hg
            rw [objGet_objSet_self]
            exact (objGet_of_mem_nodup cfg0 fv.1 fv.2 hfv hnd).symm
          · rw [objGet_objSet_ne _ _ _ _ hg]
            exact hex g2

/-- The relation between a merged database map and the original: absent
configs stay absent, present configs agree on every field lookup. -/
def cfgRel : Option (List (String × JVal)) → Option (List (String × JVal)) → Prop
  | none, none => True
  | some a, some b => ∀ g, objGet a g = objGet b g
  | _, _ => False

lemma updateDatabase_redacted (db0 : List (String × List (String × JVal)))
    (hnd : (db0.map Prod.fst).Nodup)
    (hcfg : ∀ kv ∈ db0, ((kv.2.map Prod.fst).Nodup ∧
        ∀ fv ∈ kv.2, isEmptyOrNull fv.2 = false)) :
    ∀ (entries : List (String × Option (List (String × JVal)))),
      (∀ e ∈ entries, e ∈ db0.map (fun kv =>
          (kv.1, some (kv.2.map (fun fv => (fv.1, maskDbField fv.1 fv.2)))))) →
      ∀ acc, (∀ db, cfgRel (objGet acc db) (objGet db0 db)) →
      ∀ db, cfgRel (objGet (updateDatabase acc entries) db) (objGet db0 db) := by
  intro entries
  induction entries with
  | nil => intro _ acc hacc db; exact hacc db
  | cons e rest ih =>
      intro hsub acc hacc
      show ∀ db, cfgRel (objGet (updateDatabase (dbEntryStep acc e) rest) db) _
      apply ih (fun y hy => hsub y (List.mem_cons_of_mem e hy))
      obtain ⟨kv, hkv, rfl⟩ := List.mem_map.mp (hsub e (List.mem_cons_self e rest))
      intro db
      unfold dbEntryStep
      have hdb0 : objGet db0 kv.1 = some kv.2 :=
        objGet_of_mem_nodup db0 kv.1 kv.2 hkv hnd
      have hex : ∃ ex, objGet acc kv.1 = some ex ∧ ∀ g, objGet ex g = objGet kv.2 g := by
        have := hacc kv.1
        rw [hdb0] at this
        cases haccv : objGet acc kv.1 with
        | none => rw [haccv] at this; exact absurd this (by simp [cfgRel])
        | some ex =>
            rw [haccv] at this
            exact ⟨ex, rfl, this⟩
      obtain ⟨ex, hexv, hexrel⟩ := hex
      rw [hexv]
      simp only [Option.getD_some]
      by_cases hdbeq : kv.1 = db
      · subst hdbeq
        rw [objGet_objSet_self, hdb0]
        show ∀ g, _ = _
        exact updateDbConfig_redacted kv.2 (hcfg kv hkv).1 (hcfg kv hkv).2 _
          (fun y hy => hy) ex hexrel
      · rw [objGet_objSet_ne _ _ _ _ hdbeq]
        exact hacc db

/-- C9 amended: for settings whose API keys are non-empty and whose database
config fields are neither the empty string nor null — every value the UI
round-trip actually masks — re-submitting `redactSettings(s)` through
`updateSettings` leaves every stored secret unchanged: the API-key map is
unchanged and every database field lookup is unchanged.  (For an empty-string
secret the round-trip deletes the key instead — see `C9_counterexample` —
which is the only deviation.) -/
theorem C9_redacted_roundtrip (s : Settings)
    (hak : ∀ kv ∈ s.apiKeys, kv.2 ≠ "")
    (hdbnd : (s.database.map Prod.fst).Nodup)
    (hdb : ∀ kv ∈ s.database, ((kv.2.map Prod.fst).Nodup ∧
        ∀ fv ∈ kv.2, isEmptyOrNull fv.2 = false)) :
    (updateSettings s (redactSettings s)).apiKeys = s.apiKeys ∧
    (∀ dbName f,
      (objGet (updateSettings s (redactSettings s)).database dbName).bind
          (fun c => objGet c f)
        = (objGet s.database dbName).bind (fun c => objGet c f)) := by
  constructor
  · show updateApiKeys s.apiKeys _ = s.apiKeys
    exact updateApiKeys_redacted s.apiKeys hak
  · intro dbName f
    have hrel := updateDatabase_redacted s.database hdbnd hdb _
      (fun y hy => hy) s.database (fun db => by cases objGet s.database db <;>
        simp [cfgRel]) dbName
    show (objGet (updateDatabase s.database _) dbName).bind (fun c => objGet c f)
        = (objGet s.database dbName).bind (fun c => objGet c f)
    cases hres : objGet (updateDatabase s.database
        (s.database.map (fun kv =>
          (kv.1, some (kv.2.map (fun fv => (fv.1, maskDbField fv.1 fv.2))))))) dbName with
    | none =>
        cases horig : objGet s.database dbName with
        | none => rfl
        | some c0 =>
            rw [hres, horig] at hrel
            exact absurd hrel (by simp [cfgRel])
    | some c =>
        cases horig : objGet s.database dbName with
        | none =>
            rw [hres, horig] at hrel
            exact absurd hrel (by simp [cfgRel])
        | some c0 =>
            rw [hres, horig] at hrel
            show objGet c f = objGet c0 f
            exact (show ∀ g, objGet c g = objGet c0 g from hrel) f

def c9GoodSettings : Settings :=
  { apiKeys := [("perplexity", "pplx-secret-key")],
    database := [("postgres",
      [("password", .jstr "hunter22"), ("host", .jstr "localhost"),
       ("port", .jnum 5432)])],
    notes := [], tools := [] }

theorem C9_redacted_roundtrip_witness :
    (updateSettings c9GoodSettings (redactSettings c9GoodSettings)).apiKeys
        = c9GoodSettings.apiKeys ∧
    (objGet (updateSettings c9GoodSettings
        (redactSettings c9GoodSettings)).database "postgres").bind
          (fun c => objGet c "password")
      = (objGet c9GoodSettings.database "postgres").bind
          (fun c => objGet c "password") :=
  have h := C9_redacted_roundtrip c9GoodSettings
    (by decide) (by decide)
    (by
      intro kv hkv
      simp only [c9GoodSettings, List.mem_cons, List.not_mem_nil, or_false] at hkv
      subst hkv
      exact ⟨by decide, by decide⟩)
  ⟨h.1, h.2 "postgres" "password"⟩

end Mcpy
